import Mathlib

/-!
Verification of the firmware acquisition-and-transform pipeline in
scripts/getfw.py: a shallow embedding of its file-map normalization,
retrieval strategies, patch steps and two-phase orchestrator, with
theorems settling the specification's claims about them.

Modelling conventions:
* paths are lists of path segments; joining a Python pathlib path with a
  string that may contain slashes splits that string on the slashes,
  as pathlib does;
* file-system facts a step consults (does a path exist) enter as an
  explicit existence oracle of type List String → Bool;
* side effects are recorded as an event trace; an uncaught Python
  exception is an Option PyErr value (some e) paired with the events
  that happened before it was raised;
* subprocess.call launches the tool and returns its exit status without
  inspecting it, so the exit status is recorded in the call event and
  the run continues, exactly as in the source.
-/

/-- Python str comparison helpers: a character ordered by its code point. -/
def charLtb (a b : Char) : Bool := a.toNat < b.toNat

/-- Lexicographic order on character lists, as Python compares strings. -/
def charListLtb : List Char → List Char → Bool
  | [], [] => false
  | [], _ :: _ => true
  | _ :: _, [] => false
  | a :: s, b :: t => if charLtb a b then true else if charLtb b a then false else charListLtb s t

/-- Lexicographic order on strings (Python str <). -/
def strLtb (a b : String) : Bool := charListLtb a.data b.data

/-- Python str.startswith. -/
def pyStartsWith (s pfx : String) : Bool := pfx.data.isPrefixOf s.data

/-- One pass of Python str.replace over the character list, replacing
non-overlapping occurrences left to right; fuel bounds the recursion by
the length of the subject. -/
def replaceAux (pat rep : List Char) : Nat → List Char → List Char
  | 0, _ => []
  | _, [] => []
  | fuel + 1, c :: rest =>
    if pat.isPrefixOf (c :: rest) && !pat.isEmpty then
      rep ++ replaceAux pat rep fuel (List.drop pat.length (c :: rest))
    else c :: replaceAux pat rep fuel rest

/-- Python str.replace (for a nonempty pattern, the only use in the source). -/
def pyReplace (s pat rep : String) : String :=
  ⟨replaceAux pat.data rep.data s.data.length s.data⟩

/-- The path separator. -/
def slashChar : Char := '/'

/-- Split a character list on slashes. -/
def splitSlashAux : List Char → List Char → List (List Char)
  | [], acc => [acc.reverse]
  | c :: rest, acc =>
    if c = slashChar then acc.reverse :: splitSlashAux rest []
    else splitSlashAux rest (c :: acc)

/-- A string as a list of path segments, split on the slashes: the segments
pathlib appends when such a string is joined onto a path. -/
def pathOfString (s : String) : List String :=
  (splitSlashAux s.data []).map (fun l => ⟨l⟩)

/-- A segment list rendered back as a path string. -/
def pathStr (p : List String) : String := String.intercalate "/" p

/-- Constant ATH10K_BOARD_FILE of the source. -/
def ATH10K_BOARD_FILE : String := "bdwlan.b58"

/-- Constant ATH10K_BOARD_NAME of the source. -/
def ATH10K_BOARD_NAME : String := "bus=snoc,qmi-board-id=ff,qmi-chip-id=30224"

/-- Constant PATH_PLATFORM of the source. -/
def PATH_PLATFORM : String := "XIAOMI/BOOK124"

/-- Constant PATH_VENUS of the source. -/
def PATH_VENUS : String := "venus-5.2"

/-- Constant PATH_THIRDPARTY of the source: the third-party checkout next to
the script; the directory holding the script itself is abstracted away, so
the segment list is rooted at that checkout. -/
def PATH_THIRDPARTY : List String := ["third-party"]

/-- The uncaught Python exceptions the embedded fragments can raise. -/
inductive PyErr
  | typeError
  | fileNotFound
  | fileExists
  | exception (msg : String)
deriving DecidableEq

/-- The files argument of a firmware source declaration: a Python list, a
Python dict (an insertion-ordered association list), or a value of any
other type. -/
inductive FilesArg
  | list (xs : List String)
  | dict (m : List (String × String))
  | other
deriving DecidableEq

/-- Python dict assignment d[k] = v on an insertion-ordered association
list: an existing key keeps its position and gets the new value, a new key
is appended. -/
def pyDictSet (d : List (String × String)) (k v : String) : List (String × String) :=
  if d.any (fun p => p.1 = k) then d.map (fun p => if p.1 = k then (k, v) else p)
  else d ++ [(k, v)]

/-- The dict comprehension of Firmware._filemap for a list input:
successive assignments x ↦ x in list order. -/
def pyDictOfKeys (xs : List String) : List (String × String) :=
  xs.foldl (fun d x => pyDictSet d x x) []

/-- Firmware._filemap of the source: a list becomes the comprehension
mapping each name to itself, a dict is returned unchanged, anything else
raises Exception("invalid file map"). -/
def Firmware.filemap : FilesArg → Except PyErr (List (String × String))
  | FilesArg.list xs => Except.ok (pyDictOfKeys xs)
  | FilesArg.dict m => Except.ok m
  | FilesArg.other => Except.error (PyErr.exception "invalid file map")

/-- A constructed WindowsDriverFirmware source (local-copy retrieval). -/
structure WindowsDriverFirmware where
  name : String
  target_directory : List String
  source_directory : String
  files : List (String × String)
deriving DecidableEq

/-- WindowsDriverFirmware.__init__ of the source: it normalizes the files
argument through Firmware._filemap, so an invalid argument raises already
here, at construction. -/
def WindowsDriverFirmware.make (name target_directory source_directory : String)
    (files : FilesArg) : Except PyErr WindowsDriverFirmware :=
  match Firmware.filemap files with
  | Except.error e => Except.error e
  | Except.ok fm =>
    Except.ok ⟨name, pathOfString target_directory, source_directory, fm⟩

/-- A constructed DownloadFirmware source (remote-fetch retrieval). -/
structure DownloadFirmware where
  name : String
  target_directory : List String
  source_url : String
  files : List (String × String)
deriving DecidableEq

/-- DownloadFirmware.__init__ of the source: like the local-copy
constructor it normalizes the files argument at construction. -/
def DownloadFirmware.make (name target_directory source_url : String)
    (files : FilesArg) : Except PyErr DownloadFirmware :=
  match Firmware.filemap files with
  | Except.error e => Except.error e
  | Except.ok fm =>
    Except.ok ⟨name, pathOfString target_directory, source_url, fm⟩

/-- A record of the declarative specification patch_ath10k_board feeds the
external encoder: one data-file path and the names it is indexed under. -/
structure BoardRecord where
  data : String
  names : List String
deriving DecidableEq

/-- One recorded side effect of a retrieval or patch step. -/
inductive Event
  | mkdirParents (p : List String)
  | copy (src dst : List String)
  | download (url : String) (dst : List String)
  | callTool (argv : List String) (exitCode : Int)
  | writeSpec (path : String) (spec : List BoardRecord)
  | rmtree (p : List String)
  | unlink (p : List String)
  | symlink (link : List String) (target : String)
deriving DecidableEq

/-- Does an event write a specification file? -/
def Event.isWriteSpec : Event → Bool
  | Event.writeSpec _ _ => true
  | _ => false

/-- WindowsDriverFirmware._find_source_directory of the source: scan the
driver-store root's children in enumeration order and return the first
whose name starts with the declared directory name; None when none does.
The children are a parameter because Path.iterdir yields them in an order
the file system chooses. -/
def findSourceDirectory (listing : List String) (sourcePfx : String) : Option String :=
  match listing with
  | [] => none
  | p :: rest =>
    if pyStartsWith p sourcePfx then some p else findSourceDirectory rest sourcePfx

/-- The copy loop of WindowsDriverFirmware.get once a base directory was
found: per pair, build source and target paths, create the target's parent
directories, then copy; a missing source file raises FileNotFoundError
from shutil.copy after the mkdir already happened. -/
def copyLoop (base td out : List String) (files : List (String × String))
    (fs : List String → Bool) : List Event × Option PyErr :=
  match files with
  | [] => ([], none)
  | (s, t) :: rest =>
    let src := base ++ pathOfString s
    let tgt := out ++ td ++ pathOfString t
    if fs src then
      let r := copyLoop base td out rest fs
      (Event.mkdirParents tgt.dropLast :: Event.copy src tgt :: r.1, r.2)
    else
      ([Event.mkdirParents tgt.dropLast], some PyErr.fileNotFound)

/-- WindowsDriverFirmware.get of the source. When no child matches, base
is None and the first loop iteration raises TypeError at base / s, before
any directory creation or file access; with an empty file map the loop
body never runs and get returns silently. -/
def WindowsDriverFirmware.get (fw : WindowsDriverFirmware) (wdsfrRoot listing out : List String)
    (fs : List String → Bool) : List Event × Option PyErr :=
  match findSourceDirectory listing fw.source_directory with
  | none =>
    match fw.files with
    | [] => ([], none)
    | _ :: _ => ([], some PyErr.typeError)
  | some d => copyLoop (wdsfrRoot ++ [d]) fw.target_directory out fw.files fs

/-- The download loop of DownloadFirmware.get: per pair, build the URL by
concatenation, create the target's parent directories, then retrieve the
resource to the target path. -/
def downloadLoop (url : String) (td out : List String)
    (files : List (String × String)) : List Event :=
  match files with
  | [] => []
  | (s, t) :: rest =>
    Event.mkdirParents ((out ++ td ++ pathOfString t).dropLast)
      :: Event.download (url ++ "/" ++ s) (out ++ td ++ pathOfString t)
      :: downloadLoop url td out rest

/-- DownloadFirmware.get of the source. -/
def DownloadFirmware.get (fw : DownloadFirmware) (out : List String) : List Event :=
  downloadLoop fw.source_url fw.target_directory out fw.files

/-- A gather-phase source as the orchestrator sees it: the name it logs and
the outcome of its get call (the events that happened, and the exception
that escaped, if one did). -/
structure SourceB where
  name : String
  behavior : List Event × Option PyErr
deriving DecidableEq

/-- A patch step as the orchestrator sees it: its registry name and the
outcome of applying its operation. -/
structure PatchB where
  name : String
  behavior : List Event × Option PyErr
deriving DecidableEq

/-- One entry of the pipeline's trace: a source retrieval that was entered
(the orchestrator logged its name and invoked get) or a patch step that
was entered, with the events of that invocation. -/
inductive Step
  | source (name : String) (evs : List Event)
  | patch (name : String) (evs : List Event)
deriving DecidableEq

/-- The registry name a step was logged under. -/
def stepLabel : Step → String
  | Step.source n _ => n
  | Step.patch n _ => n

/-- gather of the source: iterate the source registry in declared order,
invoking each get; an exception propagates at once, so nothing after the
failing source runs. -/
def gatherRun : List SourceB → List Step × Option PyErr
  | [] => ([], none)
  | s :: rest =>
    match s.behavior.2 with
    | some e => ([Step.source s.name s.behavior.1], some e)
    | none =>
      (Step.source s.name s.behavior.1 :: (gatherRun rest).1, (gatherRun rest).2)

/-- patch of the source: iterate the patch list in declared order; an
exception propagates at once. -/
def patchRun : List PatchB → List Step × Option PyErr
  | [] => ([], none)
  | p :: rest =>
    match p.behavior.2 with
    | some e => ([Step.patch p.name p.behavior.1], some e)
    | none =>
      (Step.patch p.name p.behavior.1 :: (patchRun rest).1, (patchRun rest).2)

/-- main of the source, after argument parsing: gather everything, and only
when gather returned normally, run the patch phase; an exception from
either phase terminates the process with a nonzero status, reported here
as the some component of the result. -/
def mainRun (srcs : List SourceB) (ps : List PatchB) : List Step × Option PyErr :=
  match (gatherRun srcs).2 with
  | some e => ((gatherRun srcs).1, some e)
  | none => ((gatherRun srcs).1 ++ (patchRun ps).1, (patchRun ps).2)

/-- Path of the pil-splitter third-party tool. -/
def pilSplitterPath : List String := PATH_THIRDPARTY ++ ["qcom-mbn-tools", "pil-splitter.py"]

/-- Path of the ath10k-bdencoder third-party tool. -/
def ath10kBdencoderPath : List String :=
  PATH_THIRDPARTY ++ ["qca-swiss-army-knife", "tools", "scripts", "ath10k", "ath10k-bdencoder"]

/-- Path of the ath10k-fwencoder third-party tool. -/
def ath10kFwencoderPath : List String :=
  PATH_THIRDPARTY ++ ["qca-swiss-army-knife", "tools", "scripts", "ath10k", "ath10k-fwencoder"]

/-- The venus output directory out/qcom/venus-5.2. -/
def venusDirPath (out : List String) : List String :=
  out ++ ["qcom"] ++ pathOfString PATH_VENUS

/-- The gathered venus container out/qcom/XIAOMI/BOOK124/qcvss8180.mbn. -/
def mbnVenusPath (out : List String) : List String :=
  out ++ ["qcom"] ++ pathOfString PATH_PLATFORM ++ ["qcvss8180.mbn"]

/-- The ath10k hw1.0 directory of the output tree. -/
def ath10kHw1Path (out : List String) : List String :=
  out ++ ["ath10k", "WCN3990", "hw1.0"]

/-- The gathered board-file directory the ath10k patch reads and deletes. -/
def ath10kBoardsPath (out : List String) : List String :=
  ath10kHw1Path out ++ ["boards"]

/-- The consolidated board-2.bin artifact the encoder produces. -/
def ath10kBoardOutPath (out : List String) : List String :=
  ath10kHw1Path out ++ ["board-2.bin"]

/-- The firmware-5.bin file the fwencoder patch modifies in place. -/
def fw5Path (out : List String) : List String :=
  ath10kHw1Path out ++ ["firmware-5.bin"]

/-- The qca directory of the output tree. -/
def qcaDirPath (out : List String) : List String := out ++ ["qca"]

/-- patch_venus_extract of the source: make the venus directory, invoke
the pil splitter through subprocess.call with the exit status the tool
happens to return, then copy the container blob; only a missing blob
raises (from shutil.copy). -/
def patch_venus_extract (out : List String) (fs : List String → Bool)
    (exitSplit : Int) : List Event × Option PyErr :=
  let argv := ["python", pathStr pilSplitterPath, pathStr (mbnVenusPath out),
    pathStr (venusDirPath out ++ ["venus"])]
  if fs (mbnVenusPath out) then
    ([Event.mkdirParents (venusDirPath out), Event.callTool argv exitSplit,
      Event.copy (mbnVenusPath out) (venusDirPath out ++ ["venus.mbn"])], none)
  else
    ([Event.mkdirParents (venusDirPath out), Event.callTool argv exitSplit],
      some PyErr.fileNotFound)

/-- patch_ath10k_board of the source: write the one-record specification
to the transient file, invoke the encoder on it through subprocess.call,
then delete the boards directory; only a missing boards directory raises
(from shutil.rmtree). -/
def patch_ath10k_board (out : List String) (fs : List String → Bool)
    (tmp : String) (exitEnc : Int) : List Event × Option PyErr :=
  let spec := [BoardRecord.mk (pathStr (ath10kBoardsPath out ++ [ATH10K_BOARD_FILE]))
    [ATH10K_BOARD_NAME]]
  let argv := ["python", pathStr ath10kBdencoderPath, "-c", tmp, "-o",
    pathStr (ath10kBoardOutPath out)]
  if fs (ath10kBoardsPath out) then
    ([Event.writeSpec tmp spec, Event.callTool argv exitEnc,
      Event.rmtree (ath10kBoardsPath out)], none)
  else
    ([Event.writeSpec tmp spec, Event.callTool argv exitEnc], some PyErr.fileNotFound)

/-- patch_ath10k_firmware of the source: one subprocess.call of the
fwencoder in modify-in-place mode. -/
def patch_ath10k_firmware (out : List String) (exitEnc : Int) :
    List Event × Option PyErr :=
  ([Event.callTool (["python", pathStr ath10kFwencoderPath, "--modify",
    "--features=wowlan,mgmt-tx-by-ref,non-bmi,single-chan-info-per-channel",
    pathStr (fw5Path out)]) exitEnc], none)

/-- The fixed file list of patch_qca_bt_symlinks. -/
def qca_bt_files : List String :=
  ["crbtfw21.tlv", "crnv21.b3c", "crnv21.b44", "crnv21.b45",
   "crnv21.b46", "crnv21.b47", "crnv21.b71", "crnv21.bin"]

/-- The alias a file is symlinked under: the name with 21 replaced by 01. -/
def bt_alias (f : String) : String := pyReplace f "21" "01"

/-- Trace-level model of patch_qca_bt_symlinks for the pipeline: unlink
each alias (missing_ok) then symlink it to the bare file name; when the
qca directory is absent the first symlink_to raises FileNotFoundError
after the first unlink was silently suppressed. -/
def patch_qca_bt_symlinks_trace (out : List String) (fs : List String → Bool) :
    List Event × Option PyErr :=
  if fs (qcaDirPath out) then
    (qca_bt_files.foldr (fun f acc =>
      Event.unlink (qcaDirPath out ++ [bt_alias f])
        :: Event.symlink (qcaDirPath out ++ [bt_alias f]) f :: acc) [], none)
  else
    ([Event.unlink (qcaDirPath out ++ [bt_alias "crbtfw21.tlv"])], some PyErr.fileNotFound)

/-- The patches registry of the source, with the behaviors of the four
patch functions at a given output root, existence oracle, transient
specification file name and tool exit statuses. -/
def patchesModel (out : List String) (fs : List String → Bool) (tmp : String)
    (c1 c2 c3 : Int) : List PatchB :=
  [ PatchB.mk "venus" (patch_venus_extract out fs c1),
    PatchB.mk "ath10k/board-2.bin" (patch_ath10k_board out fs tmp c2),
    PatchB.mk "ath10k/firmware-5.bin" (patch_ath10k_firmware out c3),
    PatchB.mk "qca/bt" (patch_qca_bt_symlinks_trace out fs) ]

/-- An entry of the qca output directory in the file-system model of the
symlink patch: a regular file or a symbolic link with its target. -/
inductive QcaEntry
  | file
  | symlink (target : String)
deriving DecidableEq

/-- The qca output directory as a partial map from names to entries. -/
abbrev QcaFS := String → Option QcaEntry

/-- Path.unlink(missing_ok=True): remove the entry if present, silently
do nothing otherwise. -/
def unlinkMissingOk (d : QcaFS) (p : String) : QcaFS :=
  fun q => if q = p then none else d q

/-- Path.symlink_to: create a symbolic link at the path, raising
FileExistsError when something already sits there. -/
def symlinkTo (d : QcaFS) (link target : String) : Except PyErr QcaFS :=
  match d link with
  | some _ => Except.error PyErr.fileExists
  | none => Except.ok (fun q => if q = link then some (QcaEntry.symlink target) else d q)

/-- The loop body of patch_qca_bt_symlinks for one file name: unlink the
alias, then symlink it to the bare original name. -/
def btAliasStep (d : QcaFS) (f : String) : Except PyErr QcaFS :=
  symlinkTo (unlinkMissingOk d (bt_alias f)) (bt_alias f) f

/-- The net effect of one loop body: the alias bound to a symlink at the
bare original name, everything else untouched. -/
def setLink (d : QcaFS) (f : String) : QcaFS :=
  fun q => if q = bt_alias f then some (QcaEntry.symlink f) else d q

/-- patch_qca_bt_symlinks of the source over the directory-map model. -/
def patch_qca_bt_symlinks (d : QcaFS) : Except PyErr QcaFS :=
  qca_bt_files.foldlM btAliasStep d

/-- Modelled from the spec: the resolution rule as §3 and the claim word
it, picking the lexicographically first child whose name starts with the
declared directory name, for comparison with findSourceDirectory. -/
def specFirstLexicographicMatch (listing : List String) (sourcePfx : String) :
    Option String :=
  (listing.filter (fun n => pyStartsWith n sourcePfx)).foldl
    (fun acc x =>
      match acc with
      | none => some x
      | some a => if strLtb x a then some x else some a)
    none

theorem pyDictSet_mem_id (d : List (String × String)) (x : String)
    (hinv : ∀ a b, (a, b) ∈ d → b = a) (k v : String) :
    ((k, v) ∈ pyDictSet d x x ↔ ((k, v) ∈ d ∨ (k = x ∧ v = x))) := by
  unfold pyDictSet
  by_cases h : d.any (fun p => p.1 = x)
  · have hmem : (x, x) ∈ d := by
      rcases List.any_eq_true.mp h with ⟨⟨a, b⟩, hp, hpx⟩
      have hax : a = x := by simpa using hpx
      have hba : b = a := hinv a b hp
      subst hax
      subst hba
      exact hp
    have hmap : d.map (fun p => if p.1 = x then (x, x) else p) = d := by
      have hptw : ∀ p ∈ d, (if p.1 = x then (x, x) else p) = p := by
        intro p hp
        rcases p with ⟨a, b⟩
        by_cases hx : a = x
        · have hba : b = a := hinv a b hp
          subst hx
          subst hba
          simp
        · simp [hx]
      simp [List.map_congr_left hptw]
    rw [if_pos h, hmap]
    constructor
    · exact fun hkv => Or.inl hkv
    · rintro (hkv | ⟨rfl, rfl⟩)
      · exact hkv
      · exact hmem
  · rw [if_neg h]
    simp only [List.mem_append, List.mem_singleton, Prod.mk.injEq]

theorem pyDictSet_inv_id (d : List (String × String)) (x : String)
    (hinv : ∀ a b, (a, b) ∈ d → b = a) :
    ∀ a b, (a, b) ∈ pyDictSet d x x → b = a := by
  intro a b hab
  rcases (pyDictSet_mem_id d x hinv a b).mp hab with hd | ⟨rfl, rfl⟩
  · exact hinv a b hd
  · rfl

theorem pyDictOfKeys_go_mem (xs : List String) :
    ∀ (d : List (String × String)), (∀ a b, (a, b) ∈ d → b = a) →
    ∀ k v, ((k, v) ∈ xs.foldl (fun d x => pyDictSet d x x) d ↔
      ((k, v) ∈ d ∨ (k ∈ xs ∧ v = k))) := by
  induction xs with
  | nil => intro d hinv k v; simp
  | cons x t ih =>
    intro d hinv k v
    rw [List.foldl_cons]
    rw [ih (pyDictSet d x x) (pyDictSet_inv_id d x hinv) k v]
    rw [pyDictSet_mem_id d x hinv k v]
    constructor
    · rintro ((hd | ⟨rfl, rfl⟩) | ⟨ht, rfl⟩)
      · exact Or.inl hd
      · exact Or.inr ⟨by simp, rfl⟩
      · exact Or.inr ⟨List.mem_cons_of_mem x ht, rfl⟩
    · rintro (hd | ⟨hk, rfl⟩)
      · exact Or.inl (Or.inl hd)
      · rcases List.mem_cons.mp hk with rfl | ht
        · exact Or.inl (Or.inr ⟨rfl, rfl⟩)
        · exact Or.inr ⟨ht, rfl⟩

theorem pyDictOfKeys_mem (xs : List String) (k v : String) :
    ((k, v) ∈ pyDictOfKeys xs ↔ (k ∈ xs ∧ v = k)) := by
  have h := pyDictOfKeys_go_mem xs [] (by simp) k v
  simpa [pyDictOfKeys] using h

theorem pyDictSet_keys (d : List (String × String)) (k v : String) :
    (pyDictSet d k v).map Prod.fst =
      if k ∈ d.map Prod.fst then d.map Prod.fst else d.map Prod.fst ++ [k] := by
  unfold pyDictSet
  by_cases h : d.any (fun p => p.1 = k)
  · have hk : k ∈ d.map Prod.fst := by
      rcases List.any_eq_true.mp h with ⟨p, hp, hpk⟩
      have : p.1 = k := by simpa using hpk
      exact this ▸ List.mem_map_of_mem Prod.fst hp
    rw [if_pos h, if_pos hk, List.map_map]
    apply List.map_congr_left
    intro p _
    by_cases hx : p.1 = k
    · simp [hx]
    · simp [hx]
  · have hk : k ∉ d.map Prod.fst := by
      intro hmem
      rcases List.mem_map.mp hmem with ⟨p, hp, hpk⟩
      exact absurd (List.any_eq_true.mpr ⟨p, hp, by simpa using hpk⟩) h
    rw [if_neg h, if_neg hk]
    simp

theorem pyDictOfKeys_go_keys (xs : List String) :
    ∀ (d : List (String × String)), (d.map Prod.fst).Nodup →
    ((xs.foldl (fun d x => pyDictSet d x x) d).map Prod.fst).Nodup
    ∧ ∀ k, (k ∈ (xs.foldl (fun d x => pyDictSet d x x) d).map Prod.fst ↔
        (k ∈ d.map Prod.fst ∨ k ∈ xs)) := by
  induction xs with
  | nil => intro d hnd; simpa using hnd
  | cons x t ih =>
    intro d hnd
    rw [List.foldl_cons]
    have hkeys := pyDictSet_keys d x x
    by_cases hx : x ∈ d.map Prod.fst
    · rw [if_pos hx] at hkeys
      have hnd' : ((pyDictSet d x x).map Prod.fst).Nodup := hkeys ▸ hnd
      rcases ih (pyDictSet d x x) hnd' with ⟨h1, h2⟩
      refine ⟨h1, fun k => ?_⟩
      rw [h2 k, hkeys]
      constructor
      · rintro (hd | ht)
        · exact Or.inl hd
        · exact Or.inr (List.mem_cons_of_mem x ht)
      · rintro (hd | hxt)
        · exact Or.inl hd
        · rcases List.mem_cons.mp hxt with rfl | ht
          · exact Or.inl hx
          · exact Or.inr ht
    · rw [if_neg hx] at hkeys
      have hnd' : ((pyDictSet d x x).map Prod.fst).Nodup := by
        rw [hkeys, List.nodup_append]
        exact ⟨hnd, List.nodup_singleton x, by simpa [List.disjoint_singleton] using hx⟩
      rcases ih (pyDictSet d x x) hnd' with ⟨h1, h2⟩
      refine ⟨h1, fun k => ?_⟩
      rw [h2 k, hkeys]
      simp only [List.mem_append, List.mem_cons, List.not_mem_nil, or_false, or_assoc]

/-- C1: for every source declaration, file-map normalization of a list
input produces the identity mapping (a pair is in the normalized map
exactly when its key is a listed name mapped to itself), a dict input is
returned unchanged, and any other input makes the source constructor
itself return the invalid-file-map error, so the failure happens at
construction time, before any retrieval could use the map. -/
theorem spec_c1 :
    (∀ xs : List String, ∃ fm, Firmware.filemap (FilesArg.list xs) = Except.ok fm
      ∧ ∀ k v, ((k, v) ∈ fm ↔ (k ∈ xs ∧ v = k)))
    ∧ (∀ m, Firmware.filemap (FilesArg.dict m) = Except.ok m)
    ∧ (∀ n td sd, WindowsDriverFirmware.make n td sd FilesArg.other
        = Except.error (PyErr.exception "invalid file map"))
    ∧ (∀ n td su, DownloadFirmware.make n td su FilesArg.other
        = Except.error (PyErr.exception "invalid file map")) := by
  refine ⟨fun xs => ⟨pyDictOfKeys xs, rfl, pyDictOfKeys_mem xs⟩,
    fun m => rfl, fun n td sd => rfl, fun n td su => rfl⟩

/-- Witness for C1 at concrete inputs drawn from the source registry. -/
theorem spec_c1_witness :
    (∃ fm, Firmware.filemap (FilesArg.list ["a680_gmu.bin", "a680_sqe.fw"]) = Except.ok fm
      ∧ ∀ k v, ((k, v) ∈ fm ↔ (k ∈ ["a680_gmu.bin", "a680_sqe.fw"] ∧ v = k)))
    ∧ Firmware.filemap (FilesArg.dict [("MCFG/oem_hw.txt.80", "modem_pr/mcfg/configs/mcfg_hw/oem_hw.txt")])
        = Except.ok [("MCFG/oem_hw.txt.80", "modem_pr/mcfg/configs/mcfg_hw/oem_hw.txt")]
    ∧ WindowsDriverFirmware.make "bluetooth" "qca" "qcbtfmuart8180" FilesArg.other
        = Except.error (PyErr.exception "invalid file map") :=
  ⟨spec_c1.1 ["a680_gmu.bin", "a680_sqe.fw"],
    spec_c1.2.1 [("MCFG/oem_hw.txt.80", "modem_pr/mcfg/configs/mcfg_hw/oem_hw.txt")],
    spec_c1.2.2.1 "bluetooth" "qca" "qcbtfmuart8180"⟩

/-- C10: file-map normalization of a list input with duplicate names
returns without error a mapping whose keys are free of duplicates and
whose key set is exactly the set of the list's elements. -/
theorem spec_c10 : ∀ xs : List String, ∃ fm,
    Firmware.filemap (FilesArg.list xs) = Except.ok fm
    ∧ (fm.map Prod.fst).Nodup
    ∧ ∀ k, (k ∈ fm.map Prod.fst ↔ k ∈ xs) := by
  intro xs
  refine ⟨pyDictOfKeys xs, rfl, ?_, ?_⟩
  · exact (pyDictOfKeys_go_keys xs [] (by simp)).1
  · intro k
    have h := (pyDictOfKeys_go_keys xs [] (by simp)).2 k
    simpa [pyDictOfKeys] using h

/-- Witness for C10 at a list with a duplicate name. -/
theorem spec_c10_witness : ∃ fm,
    Firmware.filemap (FilesArg.list ["bdwlan.b58", "bdwlan.b58", "bdwlan.bin"]) = Except.ok fm
    ∧ (fm.map Prod.fst).Nodup
    ∧ ∀ k, (k ∈ fm.map Prod.fst ↔ k ∈ ["bdwlan.b58", "bdwlan.b58", "bdwlan.bin"]) :=
  spec_c10 ["bdwlan.b58", "bdwlan.b58", "bdwlan.bin"]

/-- C5 counterexample: when the driver store enumerates its children in a
non-lexicographic order, resolution takes the first match encountered, not
the lexicographically first one. Here both children match the declared
name qcwlan8180, enumeration yields the lexicographically larger name
first, the code selects it, and the spec's lexicographic rule selects the
other. -/
theorem spec_c5_counterexample :
    findSourceDirectory ["qcwlan8180.inf_arm64_b", "qcwlan8180.inf_arm64_a"] "qcwlan8180"
        = some "qcwlan8180.inf_arm64_b"
    ∧ specFirstLexicographicMatch ["qcwlan8180.inf_arm64_b", "qcwlan8180.inf_arm64_a"] "qcwlan8180"
        = some "qcwlan8180.inf_arm64_a"
    ∧ findSourceDirectory ["qcwlan8180.inf_arm64_b", "qcwlan8180.inf_arm64_a"] "qcwlan8180"
        ≠ specFirstLexicographicMatch ["qcwlan8180.inf_arm64_b", "qcwlan8180.inf_arm64_a"] "qcwlan8180" := by
  refine ⟨by decide, by decide, by decide⟩

/-- C5 as amended: resolution selects the first matching child in the
order the driver-store root enumerates its children (any selected child
matches and every child enumerated before it does not), and when exactly
one child matches the declared name, that child is selected regardless of
the non-matching siblings. -/
theorem spec_c5 :
    (∀ (listing : List String) (pfx d : String),
      findSourceDirectory listing pfx = some d →
      ∃ i : Nat, listing.get? i = some d ∧ pyStartsWith d pfx = true
        ∧ ∀ j x, j < i → listing.get? j = some x → pyStartsWith x pfx = false)
    ∧ (∀ (listing : List String) (pfx d : String),
      listing.filter (fun n => pyStartsWith n pfx) = [d] →
      findSourceDirectory listing pfx = some d) := by
  constructor
  · intro listing pfx
    induction listing with
    | nil => intro d h; simp [findSourceDirectory] at h
    | cons a t ih =>
      intro d h
      rw [findSourceDirectory] at h
      by_cases ha : pyStartsWith a pfx
      · rw [if_pos ha] at h
        rcases Option.some_inj.mp h with rfl
        refine ⟨0, by simp, ha, ?_⟩
        intro j x hj
        omega
      · rw [if_neg ha] at h
        rcases ih d h with ⟨i, hi, hd, hbefore⟩
        refine ⟨i + 1, by simpa using hi, hd, ?_⟩
        intro j x hj hjx
        match j with
        | 0 =>
          simp only [List.get?_cons_zero, Option.some_inj] at hjx
          rw [← hjx]
          simpa using ha
        | j' + 1 =>
          exact hbefore j' x (by omega) (by simpa using hjx)
  · intro listing pfx
    induction listing with
    | nil => intro d h; simp at h
    | cons a t ih =>
      intro d h
      by_cases ha : pyStartsWith a pfx
      · rw [List.filter_cons_of_pos (by simpa using ha)] at h
        rcases List.cons_eq_cons.mp h with ⟨rfl, _⟩
        rw [findSourceDirectory, if_pos ha]
      · rw [List.filter_cons_of_neg (by simpa using ha)] at h
        rw [findSourceDirectory, if_neg ha]
        exact ih d h

/-- Witness for C5 as amended: a root with one matching child between two
non-matching siblings resolves to the matching child, in first position
among matches. -/
theorem spec_c5_witness :
    (∃ i : Nat, (["OEM0.inf_arm64", "qcwlan8180.inf_arm64_x", "zzz.inf_arm64"] : List String).get? i
        = some "qcwlan8180.inf_arm64_x"
      ∧ pyStartsWith "qcwlan8180.inf_arm64_x" "qcwlan8180" = true
      ∧ ∀ j x, j < i →
        (["OEM0.inf_arm64", "qcwlan8180.inf_arm64_x", "zzz.inf_arm64"] : List String).get? j = some x →
        pyStartsWith x "qcwlan8180" = false)
    ∧ findSourceDirectory ["OEM0.inf_arm64", "qcwlan8180.inf_arm64_x", "zzz.inf_arm64"] "qcwlan8180"
        = some "qcwlan8180.inf_arm64_x" :=
  ⟨spec_c5.1 ["OEM0.inf_arm64", "qcwlan8180.inf_arm64_x", "zzz.inf_arm64"] "qcwlan8180"
      "qcwlan8180.inf_arm64_x" (by decide),
    spec_c5.2 ["OEM0.inf_arm64", "qcwlan8180.inf_arm64_x", "zzz.inf_arm64"] "qcwlan8180"
      "qcwlan8180.inf_arm64_x" (by decide)⟩

theorem gatherRun_append_ok (pre l : List SourceB)
    (h : ∀ x ∈ pre, x.behavior.2 = none) :
    gatherRun (pre ++ l) = ((gatherRun pre).1 ++ (gatherRun l).1, (gatherRun l).2) := by
  induction pre with
  | nil => simp [gatherRun]
  | cons s t ih =>
    have hs : s.behavior.2 = none := h s (by simp)
    have ht : ∀ x ∈ t, x.behavior.2 = none := fun x hx => h x (by simp [hx])
    simp [gatherRun, hs, ih ht]

theorem gatherRun_cons_err (s : SourceB) (rest : List SourceB) (e : PyErr)
    (h : s.behavior.2 = some e) :
    gatherRun (s :: rest) = ([Step.source s.name s.behavior.1], some e) := by
  simp [gatherRun, h]

theorem gatherRun_sources_only (l : List SourceB) :
    ∀ st ∈ (gatherRun l).1, ∃ n evs, st = Step.source n evs := by
  induction l with
  | nil => simp [gatherRun]
  | cons s t ih =>
    intro st hst
    cases hb : s.behavior.2 with
    | some e =>
      simp [gatherRun, hb] at hst
      exact ⟨s.name, s.behavior.1, hst⟩
    | none =>
      simp [gatherRun, hb] at hst
      rcases hst with rfl | h2
      · exact ⟨s.name, s.behavior.1, rfl⟩
      · exact ih st h2

theorem gatherRun_ok_mem (l : List SourceB) (h : (gatherRun l).2 = none) :
    ∀ s ∈ l, s.behavior.2 = none ∧ Step.source s.name s.behavior.1 ∈ (gatherRun l).1 := by
  induction l with
  | nil => simp
  | cons s t ih =>
    cases hb : s.behavior.2 with
    | some e => simp [gatherRun, hb] at h
    | none =>
      have h2 : (gatherRun t).2 = none := by simpa [gatherRun, hb] using h
      intro x hx
      rcases List.mem_cons.mp hx with rfl | hxt
      · exact ⟨hb, by simp [gatherRun, hb]⟩
      · rcases ih h2 x hxt with ⟨h3, h4⟩
        refine ⟨h3, ?_⟩
        simp only [gatherRun, hb, List.mem_cons]
        exact Or.inr h4

theorem mainRun_fail_mid (pre : List SourceB) (s : SourceB) (rest : List SourceB)
    (ps : List PatchB) (e : PyErr) (hpre : ∀ x ∈ pre, x.behavior.2 = none)
    (hs : s.behavior.2 = some e) :
    mainRun (pre ++ s :: rest) ps
        = ((gatherRun pre).1 ++ [Step.source s.name s.behavior.1], some e)
    ∧ ∀ n evs, Step.patch n evs ∉ (mainRun (pre ++ s :: rest) ps).1 := by
  have hg : gatherRun (pre ++ s :: rest)
      = ((gatherRun pre).1 ++ [Step.source s.name s.behavior.1], some e) := by
    rw [gatherRun_append_ok pre (s :: rest) hpre, gatherRun_cons_err s rest e hs]
  have hm : mainRun (pre ++ s :: rest) ps
      = ((gatherRun pre).1 ++ [Step.source s.name s.behavior.1], some e) := by
    rw [mainRun, hg]
  refine ⟨hm, ?_⟩
  intro n evs hmem
  rw [hm] at hmem
  have hmem2 : Step.patch n evs ∈ (gatherRun (pre ++ s :: rest)).1 := by
    rw [hg]
    exact hmem
  rcases gatherRun_sources_only (pre ++ s :: rest) _ hmem2 with ⟨n2, evs2, h2⟩
  exact absurd h2 (by simp)

/-- C2: an exception in any source's retrieval ends the run with exactly
the steps of the earlier sources plus the failing one in the trace (so no
later source is attempted) and with no patch step in the trace; and
whenever any patch step appears in a run's trace, every source of the
registry completed its retrieval without error, its step sits in the
gather segment of the trace, and the whole gather segment precedes the
whole patch segment. -/
theorem spec_c2 :
    (∀ (pre : List SourceB) (s : SourceB) (rest : List SourceB) (ps : List PatchB) (e : PyErr),
      (∀ x ∈ pre, x.behavior.2 = none) → s.behavior.2 = some e →
      mainRun (pre ++ s :: rest) ps
          = ((gatherRun pre).1 ++ [Step.source s.name s.behavior.1], some e)
      ∧ ∀ n evs, Step.patch n evs ∉ (mainRun (pre ++ s :: rest) ps).1)
    ∧ (∀ (srcs : List SourceB) (ps : List PatchB) (n : String) (evs : List Event),
      Step.patch n evs ∈ (mainRun srcs ps).1 →
      (∀ s ∈ srcs, s.behavior.2 = none)
      ∧ (mainRun srcs ps).1 = (gatherRun srcs).1 ++ (patchRun ps).1
      ∧ ∀ s ∈ srcs, Step.source s.name s.behavior.1 ∈ (gatherRun srcs).1) := by
  constructor
  · intro pre s rest ps e hpre hs
    exact mainRun_fail_mid pre s rest ps e hpre hs
  · intro srcs ps n evs hmem
    cases hg : (gatherRun srcs).2 with
    | some e =>
      have ht : (mainRun srcs ps).1 = (gatherRun srcs).1 := by simp [mainRun, hg]
      rw [ht] at hmem
      rcases gatherRun_sources_only srcs _ hmem with ⟨n2, evs2, h2⟩
      exact absurd h2 (by simp)
    | none =>
      have ht : (mainRun srcs ps).1 = (gatherRun srcs).1 ++ (patchRun ps).1 := by
        simp [mainRun, hg]
      exact ⟨fun s hs => (gatherRun_ok_mem srcs hg s hs).1, ht,
        fun s hs => (gatherRun_ok_mem srcs hg s hs).2⟩

/-- Witness for C2: the spec's two-source scenario, where the first source
fails with file-not-found; the second source is not attempted and the
declared patch step does not run. -/
theorem spec_c2_witness :
    mainRun ([] ++ (⟨"wlan/vendor", ([], some PyErr.fileNotFound)⟩ : SourceB)
          :: [(⟨"mcfg", ([], none)⟩ : SourceB)]) [(⟨"venus", ([], none)⟩ : PatchB)]
        = ((gatherRun []).1
            ++ [Step.source (SourceB.mk "wlan/vendor" ([], some PyErr.fileNotFound)).name
                (SourceB.mk "wlan/vendor" ([], some PyErr.fileNotFound)).behavior.1],
          some PyErr.fileNotFound)
    ∧ ∀ n evs, Step.patch n evs ∉
        (mainRun ([] ++ (⟨"wlan/vendor", ([], some PyErr.fileNotFound)⟩ : SourceB)
          :: [(⟨"mcfg", ([], none)⟩ : SourceB)]) [(⟨"venus", ([], none)⟩ : PatchB)]).1 :=
  spec_c2.1 [] ⟨"wlan/vendor", ([], some PyErr.fileNotFound)⟩ [⟨"mcfg", ([], none)⟩]
    [⟨"venus", ([], none)⟩] PyErr.fileNotFound (by simp) rfl

/-- C4 counterexample: with a driver-store root none of whose children
match the declared name qcwlan8180, retrieval of the wlan/vendor source
does not fail with a not-found condition at a first file access: the loop
raises a TypeError while building the first source path from the None
base, before any directory creation or file access (the event trace is
empty), even though every file exists. -/
theorem spec_c4_counterexample :
    (WindowsDriverFirmware.mk "wlan/vendor" (pathOfString "qcom/XIAOMI/BOOK124")
        "qcwlan8180" [("wlanmdsp.mbn", "wlanmdsp.mbn")]).get
        ["C", "Windows", "System32", "DriverStore", "FileRepository"]
        ["oem0.inf_arm64"] ["out"] (fun _ => true)
      = ([], some PyErr.typeError)
    ∧ (some PyErr.typeError ≠ some PyErr.fileNotFound) := by
  exact ⟨by decide, by decide⟩

/-- C4 as amended: when a local-copy source's declared name matches no
child of the driver-store root, directory resolution itself silently
yields no directory, and the subsequent copy loop fails immediately with
a type error while constructing the first source path, before any file
access (the trace is empty) — not with a not-found condition; that
failure aborts the entire pipeline: the run ends at this source with no
later source attempted and no patch step run. -/
theorem spec_c4 :
    ∀ (fw : WindowsDriverFirmware) (root listing out : List String) (fs : List String → Bool),
      findSourceDirectory listing fw.source_directory = none → fw.files ≠ [] →
      fw.get root listing out fs = ([], some PyErr.typeError)
      ∧ ∀ (pre rest : List SourceB) (ps : List PatchB),
          (∀ x ∈ pre, x.behavior.2 = none) →
          mainRun (pre ++ (⟨fw.name, fw.get root listing out fs⟩ : SourceB) :: rest) ps
              = ((gatherRun pre).1 ++ [Step.source fw.name []], some PyErr.typeError)
          ∧ ∀ n evs, Step.patch n evs ∉
              (mainRun (pre ++ (⟨fw.name, fw.get root listing out fs⟩ : SourceB) :: rest) ps).1 := by
  intro fw root listing out fs hfind hne
  have hget : fw.get root listing out fs = ([], some PyErr.typeError) := by
    cases hf : fw.files with
    | nil => exact absurd hf hne
    | cons a l => simp [WindowsDriverFirmware.get, hfind, hf]
  refine ⟨hget, ?_⟩
  intro pre rest ps hpre
  have hs : (SourceB.mk fw.name (fw.get root listing out fs)).behavior.2
      = some PyErr.typeError := by
    simp [hget]
  rcases mainRun_fail_mid pre ⟨fw.name, fw.get root listing out fs⟩ rest ps
      PyErr.typeError hpre hs with ⟨h1, h2⟩
  refine ⟨?_, h2⟩
  rw [h1]
  simp [hget]

/-- Witness for C4 at the concrete wlan/vendor source, an empty pipeline
context and a root whose only child does not match. -/
theorem spec_c4_witness :
    ((WindowsDriverFirmware.mk "wlan/vendor" (pathOfString "qcom/XIAOMI/BOOK124")
        "qcwlan8180" [("wlanmdsp.mbn", "wlanmdsp.mbn")]).get
        ["FileRepository"] ["oem0.inf_arm64"] ["out"] (fun _ => false)
      = ([], some PyErr.typeError))
    ∧ ∀ (pre rest : List SourceB) (ps : List PatchB),
        (∀ x ∈ pre, x.behavior.2 = none) →
        mainRun (pre ++ (⟨(WindowsDriverFirmware.mk "wlan/vendor"
              (pathOfString "qcom/XIAOMI/BOOK124") "qcwlan8180"
              [("wlanmdsp.mbn", "wlanmdsp.mbn")]).name,
            (WindowsDriverFirmware.mk "wlan/vendor" (pathOfString "qcom/XIAOMI/BOOK124")
              "qcwlan8180" [("wlanmdsp.mbn", "wlanmdsp.mbn")]).get
              ["FileRepository"] ["oem0.inf_arm64"] ["out"] (fun _ => false)⟩ : SourceB)
            :: rest) ps
            = ((gatherRun pre).1
                ++ [Step.source (WindowsDriverFirmware.mk "wlan/vendor"
                    (pathOfString "qcom/XIAOMI/BOOK124") "qcwlan8180"
                    [("wlanmdsp.mbn", "wlanmdsp.mbn")]).name []],
              some PyErr.typeError)
        ∧ ∀ n evs, Step.patch n evs ∉
            (mainRun (pre ++ (⟨(WindowsDriverFirmware.mk "wlan/vendor"
                  (pathOfString "qcom/XIAOMI/BOOK124") "qcwlan8180"
                  [("wlanmdsp.mbn", "wlanmdsp.mbn")]).name,
                (WindowsDriverFirmware.mk "wlan/vendor" (pathOfString "qcom/XIAOMI/BOOK124")
                  "qcwlan8180" [("wlanmdsp.mbn", "wlanmdsp.mbn")]).get
                  ["FileRepository"] ["oem0.inf_arm64"] ["out"] (fun _ => false)⟩ : SourceB)
                :: rest) ps).1 :=
  spec_c4 (WindowsDriverFirmware.mk "wlan/vendor" (pathOfString "qcom/XIAOMI/BOOK124")
      "qcwlan8180" [("wlanmdsp.mbn", "wlanmdsp.mbn")])
    ["FileRepository"] ["oem0.inf_arm64"] ["out"] (fun _ => false) (by decide) (by decide)

/-- C3 counterexample: a full patch phase in which every invoked tool
exits with status 1. The claim would have the venus splitter's non-zero
exit unwind and stop the phase; instead the run records the non-zero exit
inside the venus step, continues, runs all three later patch steps, and
the whole pipeline finishes without error (process exit status zero). -/
theorem spec_c3_counterexample :
    (mainRun [] (patchesModel ["out"] (fun _ => true) "bdf.json" 1 1 1)).2 = none
    ∧ (mainRun [] (patchesModel ["out"] (fun _ => true) "bdf.json" 1 1 1)).1.map stepLabel
        = ["venus", "ath10k/board-2.bin", "ath10k/firmware-5.bin", "qca/bt"]
    ∧ Event.callTool ["python", pathStr pilSplitterPath, pathStr (mbnVenusPath ["out"]),
          pathStr (venusDirPath ["out"] ++ ["venus"])] 1
        ∈ (patch_venus_extract ["out"] (fun _ => true) 1).1 := by
  refine ⟨by decide, by decide, by decide⟩

/-- C3 as amended: a non-zero exit status returned by an invoked
encoder/splitter is ignored: subprocess.call hands the status back and
nothing inspects it, so whether each patch step fails, and which patch
steps run, are independent of the tools' exit statuses; in particular no
non-zero exit status by itself unwinds to the top level or prevents a
later patch step from running. -/
theorem spec_c3 :
    ∀ (out : List String) (fs : List String → Bool) (tmp : String) (c1 c2 c3 : Int),
      (patchRun (patchesModel out fs tmp c1 c2 c3)).2
          = (patchRun (patchesModel out fs tmp 0 0 0)).2
      ∧ (patchRun (patchesModel out fs tmp c1 c2 c3)).1.map stepLabel
          = (patchRun (patchesModel out fs tmp 0 0 0)).1.map stepLabel
      ∧ (patch_venus_extract out fs c1).2 = (patch_venus_extract out fs 0).2
      ∧ (patch_ath10k_board out fs tmp c2).2 = (patch_ath10k_board out fs tmp 0).2
      ∧ (patch_ath10k_firmware out c3).2 = (patch_ath10k_firmware out 0).2 := by
  intro out fs tmp c1 c2 c3
  by_cases h1 : fs (mbnVenusPath out) <;> by_cases h2 : fs (ath10kBoardsPath out) <;>
    by_cases h3 : fs (qcaDirPath out) <;>
    simp [patchesModel, patchRun, patch_venus_extract, patch_ath10k_board,
      patch_ath10k_firmware, patch_qca_bt_symlinks_trace, stepLabel, h1, h2, h3]

theorem btAliasStep_eq (d : QcaFS) (f : String) :
    btAliasStep d f = Except.ok (setLink d f) := by
  have h0 : unlinkMissingOk d (bt_alias f) (bt_alias f) = none := by
    simp [unlinkMissingOk]
  unfold btAliasStep symlinkTo
  rw [h0]
  show (Except.ok fun q =>
      if q = bt_alias f then some (QcaEntry.symlink f) else unlinkMissingOk d (bt_alias f) q
    : Except PyErr QcaFS) = Except.ok (setLink d f)
  congr 1
  funext q
  by_cases hq : q = bt_alias f
  · simp [setLink, hq]
  · simp [setLink, unlinkMissingOk, hq]

theorem foldlM_btAliasStep (l : List String) :
    ∀ d : QcaFS, l.foldlM btAliasStep d = Except.ok (l.foldl setLink d) := by
  induction l with
  | nil => intro d; rfl
  | cons f t ih =>
    intro d
    rw [List.foldlM_cons, btAliasStep_eq]
    rw [show ((Except.ok (setLink d f) : Except PyErr QcaFS) >>= fun b => t.foldlM btAliasStep b)
        = t.foldlM btAliasStep (setLink d f) from rfl]
    exact ih (setLink d f)

theorem foldl_setLink_untouched (l : List String) :
    ∀ (d : QcaFS) (q : String), (∀ f ∈ l, bt_alias f ≠ q) → (l.foldl setLink d) q = d q := by
  induction l with
  | nil => intro d q _; rfl
  | cons f t ih =>
    intro d q h
    rw [List.foldl_cons]
    rw [ih (setLink d f) q (fun g hg => h g (by simp [hg]))]
    have hne : ¬(q = bt_alias f) := fun hq => (h f (by simp)) hq.symm
    simp [setLink, hne]

theorem foldl_setLink_congrFn (l : List String) :
    ∀ (d1 d2 : QcaFS), (∀ q, (∀ f ∈ l, bt_alias f ≠ q) → d1 q = d2 q) →
    l.foldl setLink d1 = l.foldl setLink d2 := by
  induction l with
  | nil =>
    intro d1 d2 h
    funext q
    exact h q (by simp)
  | cons f t ih =>
    intro d1 d2 h
    rw [List.foldl_cons, List.foldl_cons]
    apply ih
    intro q hq
    by_cases hqf : q = bt_alias f
    · simp [setLink, hqf]
    · have hd : d1 q = d2 q := by
        apply h q
        intro g hg
        rcases List.mem_cons.mp hg with rfl | hgt
        · exact fun he => hqf he.symm
        · exact hq g hgt
      simp [setLink, hqf, hd]

theorem foldl_setLink_idem (l : List String) (d : QcaFS) :
    l.foldl setLink (l.foldl setLink d) = l.foldl setLink d := by
  apply foldl_setLink_congrFn
  intro q hq
  exact foldl_setLink_untouched l d q hq

theorem foldl_setLink_lookup (l : List String) :
    ∀ (d : QcaFS) (f : String), (l.map bt_alias).Nodup → f ∈ l →
    (l.foldl setLink d) (bt_alias f) = some (QcaEntry.symlink f) := by
  induction l with
  | nil => intro d f _ hf; simp at hf
  | cons g t ih =>
    intro d f hnd hf
    have hnd2 : bt_alias g ∉ t.map bt_alias ∧ (t.map bt_alias).Nodup := by
      rw [List.map_cons] at hnd
      exact List.nodup_cons.mp hnd
    rw [List.foldl_cons]
    by_cases hft : f ∈ t
    · exact ih (setLink d g) f hnd2.2 hft
    · rcases List.mem_cons.mp hf with rfl | h2
      · rw [foldl_setLink_untouched t (setLink d f) (bt_alias f) ?_]
        · simp [setLink]
        · intro x hx he
          exact hnd2.1 (he ▸ List.mem_map_of_mem bt_alias hx)
      · exact absurd h2 hft

theorem patch_qca_bt_symlinks_eq (d : QcaFS) :
    patch_qca_bt_symlinks d = Except.ok (qca_bt_files.foldl setLink d) :=
  foldlM_btAliasStep qca_bt_files d

/-- C6: the alias-symlinking patch is idempotent over the directory-map
model: from any starting state it succeeds, and a second run over the
result succeeds again and returns the very same state, so the final
symlinks and their targets are those of the single run and the second run
raises nothing (each alias is unlinked before it is re-created). -/
theorem spec_c6 : ∀ d : QcaFS, ∃ t, patch_qca_bt_symlinks d = Except.ok t
    ∧ patch_qca_bt_symlinks t = Except.ok t := by
  intro d
  refine ⟨qca_bt_files.foldl setLink d, patch_qca_bt_symlinks_eq d, ?_⟩
  rw [patch_qca_bt_symlinks_eq, foldl_setLink_idem]

/-- C9: the alias names of the fixed file list are the names with every
occurrence of 21 replaced by 01, and for every file of the list the patch
leaves at the alias a symbolic link whose target is the bare original
file name (a relative sibling reference, not a path into the output
tree). -/
theorem spec_c9 :
    qca_bt_files.map bt_alias = ["crbtfw01.tlv", "crnv01.b3c", "crnv01.b44", "crnv01.b45",
        "crnv01.b46", "crnv01.b47", "crnv01.b71", "crnv01.bin"]
    ∧ ∀ (d : QcaFS) (f : String), f ∈ qca_bt_files →
      ∃ t, patch_qca_bt_symlinks d = Except.ok t
        ∧ t (bt_alias f) = some (QcaEntry.symlink f) := by
  refine ⟨by decide, ?_⟩
  intro d f hf
  refine ⟨qca_bt_files.foldl setLink d, patch_qca_bt_symlinks_eq d, ?_⟩
  exact foldl_setLink_lookup qca_bt_files d f (by decide) hf

/-- Witness for C9 at the first listed file over an empty directory. -/
theorem spec_c9_witness :
    ∃ t, patch_qca_bt_symlinks (fun _ => none) = Except.ok t
      ∧ t (bt_alias "crbtfw21.tlv") = some (QcaEntry.symlink "crbtfw21.tlv") :=
  spec_c9.2 (fun _ => none) "crbtfw21.tlv" (by decide)

/-- C7: given that the gathered boards directory exists, the board patch
succeeds, its trace writes exactly one specification file, holding exactly
the one record naming the bdwlan.b58 data file under the declared board
name, and it invokes the encoder on that same transient specification
file with the declared board-2.bin output path before deleting the boards
directory that held the raw input files. -/
theorem spec_c7 : ∀ (out : List String) (fs : List String → Bool) (tmp : String) (c : Int),
    fs (ath10kBoardsPath out) = true →
    ∃ evs, patch_ath10k_board out fs tmp c = (evs, none)
      ∧ evs.filter Event.isWriteSpec
          = [Event.writeSpec tmp [BoardRecord.mk
              (pathStr (ath10kBoardsPath out ++ [ATH10K_BOARD_FILE])) [ATH10K_BOARD_NAME]]]
      ∧ ∃ i j : Nat, i < j
          ∧ evs.get? i = some (Event.callTool ["python", pathStr ath10kBdencoderPath,
              "-c", tmp, "-o", pathStr (ath10kBoardOutPath out)] c)
          ∧ evs.get? j = some (Event.rmtree (ath10kBoardsPath out)) := by
  intro out fs tmp c h
  refine ⟨[Event.writeSpec tmp [BoardRecord.mk
        (pathStr (ath10kBoardsPath out ++ [ATH10K_BOARD_FILE])) [ATH10K_BOARD_NAME]],
      Event.callTool ["python", pathStr ath10kBdencoderPath, "-c", tmp, "-o",
        pathStr (ath10kBoardOutPath out)] c,
      Event.rmtree (ath10kBoardsPath out)], ?_, ?_, 1, 2, by omega, rfl, rfl⟩
  · simp [patch_ath10k_board, h]
  · simp [Event.isWriteSpec]

/-- Witness for C7 with a one-segment output root, an all-true existence
oracle, a concrete transient file name and exit status zero. -/
theorem spec_c7_witness :
    ∃ evs, patch_ath10k_board ["fw"] (fun _ => true) "bdf.json" 0 = (evs, none)
      ∧ evs.filter Event.isWriteSpec
          = [Event.writeSpec "bdf.json" [BoardRecord.mk
              (pathStr (ath10kBoardsPath ["fw"] ++ [ATH10K_BOARD_FILE])) [ATH10K_BOARD_NAME]]]
      ∧ ∃ i j : Nat, i < j
          ∧ evs.get? i = some (Event.callTool ["python", pathStr ath10kBdencoderPath,
              "-c", "bdf.json", "-o", pathStr (ath10kBoardOutPath ["fw"])] 0)
          ∧ evs.get? j = some (Event.rmtree (ath10kBoardsPath ["fw"])) :=
  spec_c7 ["fw"] (fun _ => true) "bdf.json" 0 rfl

theorem downloadLoop_mem (url : String) (td out : List String)
    (files : List (String × String)) (s t : String) (hmem : (s, t) ∈ files) :
    ∃ pre suf, downloadLoop url td out files
      = pre ++ Event.mkdirParents ((out ++ td ++ pathOfString t).dropLast)
          :: Event.download (url ++ "/" ++ s) (out ++ td ++ pathOfString t) :: suf := by
  induction files with
  | nil => simp at hmem
  | cons p rest ih =>
    rcases p with ⟨a, b⟩
    rcases List.mem_cons.mp hmem with heq | h2
    · rcases Prod.mk.injEq s t a b ▸ heq with ⟨rfl, rfl⟩
      exact ⟨[], downloadLoop url td out rest, by simp [downloadLoop]⟩
    · rcases ih h2 with ⟨pre, suf, hp⟩
      refine ⟨Event.mkdirParents ((out ++ td ++ pathOfString b).dropLast)
          :: Event.download (url ++ "/" ++ a) (out ++ td ++ pathOfString b) :: pre, suf, ?_⟩
      simp [downloadLoop, hp]

/-- C8: for a remote-fetch source, every pair of its file map gives rise,
within the retrieval trace, to the creation of the destination's missing
parent directories immediately followed by the retrieval of exactly
base URL + "/" + source name into output root/target directory/target
name. -/
theorem spec_c8 : ∀ (fw : DownloadFirmware) (out : List String) (s t : String),
    (s, t) ∈ fw.files →
    ∃ pre suf, fw.get out
      = pre ++ Event.mkdirParents ((out ++ fw.target_directory ++ pathOfString t).dropLast)
          :: Event.download (fw.source_url ++ "/" ++ s)
              (out ++ fw.target_directory ++ pathOfString t) :: suf := by
  intro fw out s t hmem
  exact downloadLoop_mem fw.source_url fw.target_directory out fw.files s t hmem

/-- Witness for C8 at the pd-maps source restricted to its first file. -/
theorem spec_c8_witness :
    ∃ pre suf, (DownloadFirmware.mk "pd-maps" (pathOfString "qcom/XIAOMI/BOOK124")
        "https://raw.githubusercontent.com/linux-surface/aarch64-firmware/main/firmware/qcom/msft/surface/pro-x-sq2"
        [("adspr.jsn", "adspr.jsn")]).get ["out"]
      = pre ++ Event.mkdirParents
            ((["out"] ++ pathOfString "qcom/XIAOMI/BOOK124" ++ pathOfString "adspr.jsn").dropLast)
          :: Event.download
            ("https://raw.githubusercontent.com/linux-surface/aarch64-firmware/main/firmware/qcom/msft/surface/pro-x-sq2" ++ "/" ++ "adspr.jsn")
            (["out"] ++ pathOfString "qcom/XIAOMI/BOOK124" ++ pathOfString "adspr.jsn") :: suf :=
  spec_c8 (DownloadFirmware.mk "pd-maps" (pathOfString "qcom/XIAOMI/BOOK124")
      "https://raw.githubusercontent.com/linux-surface/aarch64-firmware/main/firmware/qcom/msft/surface/pro-x-sq2"
      [("adspr.jsn", "adspr.jsn")]) ["out"] "adspr.jsn" "adspr.jsn" (by decide)
